import Mathlib

/-!
Shallow embedding of the ppcp coordinator layer (`src/app.rs`): the
`TrackChange` dirty-flag primitive, the `OperationStats` aggregator, the
coordinator event loop of `App::run`, the throttled presenter
`App::update_progress`, the rate formatter `App::fmt_speed`, and the
`SourceWalker` path producer.  Machine integers (`usize`) are modelled as
`Nat` with explicit reduction modulo `2^64` wherever the Rust code performs
arithmetic; a Rust panic (integer division by zero, `unwrap`, `expect`) is
modelled as `Option.none` respectively an explicit exit marker.  Durations
and instants are modelled as nanosecond counts.
-/

namespace Ppcp

/-- The modulus of 64-bit `usize` arithmetic (the build targets a 64-bit
platform). -/
def W : Nat := 2 ^ 64

/-- `std::usize::MAX` on a 64-bit platform. -/
def usizeMAX : Nat := W - 1

/-- Rust unsigned integer division; division by zero panics (`none`). -/
def checkedDiv (a b : Nat) : Option Nat :=
  if b = 0 then none else some (a / b)

/-- `App::fmt_speed` (src/app.rs:241-259), the numeric `speed` value it
computes; the final rendering through `indicatif::HumanBytes` is external.
`x` is the `usize` quantity, `ela` the elapsed duration in nanoseconds.
`Duration` comparisons compare total nanoseconds; `as_secs` is `ns / 10^9`,
`as_micros` is `ns / 10^3`, `as_millis` is `ns / 10^6`, and the `as usize`
casts of the `u128` results wrap modulo `2^64`.  The result is `none` when
the Rust code panics (division by zero). -/
def fmt_speed (x : Nat) (ela : Nat) : Option Nat :=
  if 1000000000 < ela then
    checkedDiv x (ela / 1000000000)
  else if 1000 < ela ∧ x < usizeMAX / 1000 then
    checkedDiv (x * 1000 % W) (ela / 1000 % W)
  else if 1000000 < ela ∧ x < usizeMAX / 1000000 then
    checkedDiv (x * 1000000 % W) (ela / 1000000 % W)
  else if 1 < ela ∧ x < usizeMAX / 1000000000 then
    checkedDiv (x * 1000000000 % W) (ela / 1000000 % W)
  else
    some 0

/-- The rate staircase exactly as the specification states it (§4.4 of the
spec), including the verbatim milliseconds divisor of the nanosecond branch.
Written from the spec's words, to be compared with `fmt_speed`; division by
zero has no value. -/
def spec_rate_staircase (quantity elapsed : Nat) : Option Nat :=
  if 1000000000 < elapsed then
    checkedDiv quantity (elapsed / 1000000000)
  else if 1000 < elapsed ∧ quantity < usizeMAX / 1000 then
    checkedDiv (quantity * 1000) (elapsed / 1000)
  else if 1000000 < elapsed ∧ quantity < usizeMAX / 1000000 then
    checkedDiv (quantity * 1000000) (elapsed / 1000000)
  else if 1 < elapsed ∧ quantity < usizeMAX / 1000000000 then
    checkedDiv (quantity * 1000000000) (elapsed / 1000000)
  else
    some 0

/-- `TrackChange<T: PartialEq>` (src/app.rs:15-19): a value paired with a
dirty flag. -/
structure TrackChange (T : Type) where
  val : T
  changed : Bool
deriving DecidableEq

/-- `TrackChange::new` (src/app.rs:22-24). -/
def TrackChange.new {T : Type} (v : T) : TrackChange T :=
  { val := v, changed := false }

/-- `TrackChange::changed` (src/app.rs:25-29), the read-and-clear of the
dirty flag (the spec calls it `take_dirty`); returns the flag together with
the post-state. -/
def TrackChange.take_dirty {T : Type} (t : TrackChange T) :
    Bool × TrackChange T :=
  (t.changed, { val := t.val, changed := false })

/-- `TrackChange::set` (src/app.rs:30-36): a no-op when the new value equals
the stored one, otherwise stores it and raises the dirty flag. -/
def TrackChange.set {T : Type} [DecidableEq T] (t : TrackChange T) (v : T) :
    TrackChange T :=
  if v = t.val then t else { val := v, changed := true }

/-- Writing `v` through `DerefMut` (src/app.rs:44-49): the dirty flag is
raised unconditionally ("XXX not checking prev value") and the value
becomes `v`. -/
def TrackChange.deref_mut_write {T : Type} (_t : TrackChange T) (v : T) :
    TrackChange T :=
  { val := v, changed := true }

/-- Folding a list of `set` calls over a `TrackChange`. -/
def TrackChange.setList {T : Type} [DecidableEq T] (t : TrackChange T)
    (vs : List T) : TrackChange T :=
  vs.foldl TrackChange.set t

/-- Whether a list of values, written in order starting from current value
`c`, contains a transition to a genuinely different value. -/
def hasTransition {T : Type} [DecidableEq T] : T → List T → Bool
  | _, [] => false
  | c, v :: rest => (decide ¬ (v = c)) || hasTransition v rest

/-- `StatsChange` (from the `copy` module, which is not under `src/`).
Modelled from the spec: variants `FilesDone`, `FilesTotal`, `BytesTotal(n)`
and `Current(path, chunk_len, done_so_far, file_total_size)`; paths are
modelled as strings. -/
inductive StatsChange where
  | filesDone : StatsChange
  | filesTotal : StatsChange
  | bytesTotal (n : Nat) : StatsChange
  | current (p : String) (chunk : Nat) (dn : Nat) (todo : Nat) : StatsChange
deriving DecidableEq

/-- `OperationStatus` (from the `copy` module, not under `src/`).
Modelled from the spec: includes at least `Error(message)`; other statuses
are opaque. -/
inductive OperationStatus where
  | error (msg : String) : OperationStatus
  | otherStatus : OperationStatus
deriving DecidableEq

/-- `WorkerEvent` (from the `copy` module, not under `src/`).  Modelled
from the spec: tagged union of `Stat(StatsChange)` and
`Status(OperationStatus)`. -/
inductive WorkerEvent where
  | stat (c : StatsChange) : WorkerEvent
  | status (s : OperationStatus) : WorkerEvent
deriving DecidableEq

/-- `OperationControl` (from the `copy` module, not under `src/`).
Modelled from the spec: `Retry | Skip | Abort`. -/
inductive OperationControl where
  | retry : OperationControl
  | skip : OperationControl
  | abort : OperationControl
deriving DecidableEq

/-- `App::error_ask` (src/app.rs:153-155): the default decision policy,
which always answers `Skip`. -/
def error_ask (_err : String) : OperationControl :=
  OperationControl.skip

/-- `OperationStats` (src/app.rs:52-61); `current_start` is an instant in
nanoseconds. -/
structure OperationStats where
  files_done : Nat
  bytes_done : Nat
  files_total : TrackChange Nat
  bytes_total : TrackChange Nat
  current_total : TrackChange Nat
  current_done : Nat
  current_path : TrackChange String
  current_start : Nat
deriving DecidableEq

/-- `OperationStats::default` (src/app.rs:63-76); `now` is the instant at
which the default is constructed. -/
def defaultStats (now : Nat) : OperationStats :=
  { files_done := 0
    bytes_done := 0
    files_total := TrackChange.new 0
    bytes_total := TrackChange.new 0
    current_total := TrackChange.new 0
    current_done := 0
    current_path := TrackChange.new ""
    current_start := now }

/-- The presenter state of `App` (src/app.rs:78-85) together with an
abstract rendering of the four `indicatif` display regions (the bars and
spinner are external collaborators; their observable update calls are
recorded as fields).  `redraw_count` counts the redraws that proceeded past
the throttle; `curr_speed_msg` records the value passed to the current-file
speed message (`none` when the `fmt_speed` call panics). -/
structure AppM where
  last_update : Nat
  redraw_count : Nat
  spinner_ticks : Nat
  name_msg : String
  curr_len : Nat
  curr_pos : Nat
  curr_speed_msg : Option Nat
  curr_timer_resets : Nat
  files_len : Nat
  files_pos : Nat
  bytes_len : Nat
  bytes_pos : Nat
deriving DecidableEq

/-- `App::update_progress` (src/app.rs:157-186).  `now` is the current
instant in nanoseconds; `Instant::duration_since` saturates at zero, which
Nat subtraction matches.  If less than 97 ms elapsed since `last_update`
the call returns immediately; otherwise it ticks the spinner, consumes the
three dirty flags in source order and updates the display regions.  The
source calls `Instant::now()` afresh for the speed computation; the model
uses the single instant `now` of this call. -/
def update_progress (now : Nat) (app : AppM) (stats : OperationStats) :
    AppM × OperationStats :=
  if now - app.last_update < 97000000 then
    (app, stats)
  else
    let app := { app with last_update := now,
                          spinner_ticks := app.spinner_ticks + 1,
                          redraw_count := app.redraw_count + 1 }
    let pd := stats.current_path.take_dirty
    let stats := { stats with current_path := pd.2 }
    let app :=
      if pd.1 then
        { app with name_msg := stats.current_path.val,
                   curr_len := stats.current_total.val,
                   curr_timer_resets := app.curr_timer_resets + 1 }
      else app
    let stats := if pd.1 then { stats with current_start := now } else stats
    let app := { app with
      curr_pos := stats.current_done,
      curr_speed_msg := fmt_speed stats.current_done (now - stats.current_start) }
    let fd := stats.files_total.take_dirty
    let stats := { stats with files_total := fd.2 }
    let app := if fd.1 then { app with files_len := stats.files_total.val } else app
    let app := { app with files_pos := stats.files_done }
    let bd := stats.bytes_total.take_dirty
    let stats := { stats with bytes_total := bd.2 }
    let app := if bd.1 then { app with bytes_len := stats.bytes_total.val } else app
    let app := { app with bytes_pos := stats.bytes_done }
    (app, stats)

/-- The `match event` statistics updates of the coordinator loop
(src/app.rs:211-226); `usize` additions reduce modulo `2^64`.
`FilesTotal` and `BytesTotal` go through the `DerefMut` access
`*stats.files_total += 1` / `*stats.bytes_total += n`. -/
def applyEvent (s : OperationStats) (e : WorkerEvent) : OperationStats :=
  match e with
  | WorkerEvent.stat StatsChange.filesDone =>
      { s with files_done := (s.files_done + 1) % W }
  | WorkerEvent.stat StatsChange.filesTotal =>
      { s with files_total :=
          s.files_total.deref_mut_write ((s.files_total.val + 1) % W) }
  | WorkerEvent.stat (StatsChange.bytesTotal n) =>
      { s with bytes_total :=
          s.bytes_total.deref_mut_write ((s.bytes_total.val + n) % W) }
  | WorkerEvent.stat (StatsChange.current p chunk dn todo) =>
      { s with current_path := s.current_path.set p,
               current_total := s.current_total.set todo,
               current_done := dn,
               bytes_done := (s.bytes_done + chunk) % W }
  | WorkerEvent.status _ => s

/-- The control reply the coordinator sends for one event
(src/app.rs:221-224): the `Status(Error)` arm sends exactly the answer of
`error_ask`; no other arm sends anything. -/
def replyFor (e : WorkerEvent) : Option OperationControl :=
  match e with
  | WorkerEvent.status (OperationStatus.error m) => some (error_ask m)
  | _ => none

/-- State threaded through the coordinator loop of `App::run`:
the statistics, the presenter, and the control messages sent so far (in
order) on the `user_tx` channel. -/
structure LoopState where
  stats : OperationStats
  app : AppM
  sent : List OperationControl
deriving DecidableEq

/-- One iteration of the coordinator loop (src/app.rs:210-228): dispatch
the event, send any control reply, then call `update_progress`; `now` is
the instant of the `update_progress` call. -/
def runStep (st : LoopState) (ev : WorkerEvent) (now : Nat) : LoopState :=
  let stats1 := applyEvent st.stats ev
  let sent1 := st.sent ++ (replyFor ev).toList
  let us := update_progress now st.app stats1
  { stats := us.2, app := us.1, sent := sent1 }

/-- The coordinator loop over a finite event sequence, each event paired
with the instant at which its iteration runs. -/
def runLoop (st : LoopState) : List (WorkerEvent × Nat) → LoopState
  | [] => st
  | (ev, t) :: rest => runLoop (runStep st ev t) rest

/-- The loop state at the start of a run: default statistics and a fresh
presenter, both stamped with instant `t0`, nothing sent yet. -/
def initLoopState (t0 : Nat) : LoopState :=
  { stats := defaultStats t0
    app := { last_update := t0, redraw_count := 0, spinner_ticks := 0,
             name_msg := "", curr_len := 10, curr_pos := 0,
             curr_speed_msg := some 0, curr_timer_resets := 0,
             files_len := 10, files_pos := 0, bytes_len := 10, bytes_pos := 0 }
    sent := [] }

/-- The chunk contributed to `bytes_done` by one event. -/
def chunkOf (e : WorkerEvent) : Nat :=
  match e with
  | WorkerEvent.stat (StatsChange.current _ c _ _) => c
  | _ => 0

/-- The increment contributed to `files_done` by one event. -/
def fdOf (e : WorkerEvent) : Nat :=
  match e with
  | WorkerEvent.stat StatsChange.filesDone => 1
  | _ => 0

/-- Sum of the `Current` chunk sizes of an event sequence. -/
def sumChunks (evs : List WorkerEvent) : Nat :=
  (evs.map chunkOf).sum

/-- Number of `FilesDone` events in a sequence. -/
def countFilesDone (evs : List WorkerEvent) : Nat :=
  (evs.map fdOf).sum

/-- One entry yielded by the `walkdir` iterator: either a directory entry
with its path and file-type flag, or a traversal error (`Err(_)`). -/
inductive WalkEntry where
  | found (p : String) (isFile : Bool) : WalkEntry
  | fsError : WalkEntry
deriving DecidableEq

/-- The filesystem as an oracle for the external `canonicalize` and
`walkdir` collaborators: `canon r` is the canonicalized form of root `r`
(`none` when canonicalization fails), `walk s` the sequence of entries the
recursive traversal of `s` yields. -/
structure FS where
  canon : String → Option String
  walk : String → List WalkEntry

/-- How the producer thread of `SourceWalker::run` terminates. -/
inductive WalkerExit where
  | finished : WalkerExit
  | canonPanic (root : String) : WalkerExit
  | sendPanic : WalkerExit
deriving DecidableEq

/-- The inner `for entry in WalkDir::new(src)` loop of `SourceWalker::run`
(src/app.rs:95-106): regular files are sent as `(src, path)`, traversal
errors and non-files are skipped.  The channel accepts the first `lim`
sends and fails afterwards (`lim = none`: the receiver stays alive); `cnt`
counts the sends already performed by this thread, `out` accumulates the
pairs delivered so far.  The returned flag is `false` when a send failed
(the `expect("send")` panic). -/
def walkEntries (src : String) (lim : Option Nat) :
    Nat → List (String × String) → List WalkEntry →
    List (String × String) × Nat × Bool
  | cnt, out, [] => (out, cnt, true)
  | cnt, out, WalkEntry.fsError :: rest => walkEntries src lim cnt out rest
  | cnt, out, WalkEntry.found p isF :: rest =>
      if isF then
        match lim with
        | some k =>
            if k ≤ cnt then (out, cnt, false)
            else walkEntries src lim (cnt + 1) (out ++ [(src, p)]) rest
        | none => walkEntries src lim (cnt + 1) (out ++ [(src, p)]) rest
      else walkEntries src lim cnt out rest

/-- The outer `for src in sources` loop of the producer thread
(src/app.rs:92-108): each root is canonicalized with `unwrap` (a failure
panics the thread before any traversal of that root) and then walked;
returns the pairs delivered on the channel and how the thread exited. -/
def runWalker (fs : FS) (lim : Option Nat) :
    List String → Nat → List (String × String) →
    List (String × String) × WalkerExit
  | [], _, out => (out, WalkerExit.finished)
  | r :: rest, cnt, out =>
      match fs.canon r with
      | none => (out, WalkerExit.canonPanic r)
      | some src =>
          match walkEntries src lim cnt out (fs.walk src) with
          | (out2, cnt2, true) => runWalker fs lim rest cnt2 out2
          | (out2, _, false) => (out2, WalkerExit.sendPanic)

/-- The regular-file paths among a traversal's entries, in order. -/
def filesOf : List WalkEntry → List String
  | [] => []
  | WalkEntry.found p true :: rest => p :: filesOf rest
  | WalkEntry.found _ false :: rest => filesOf rest
  | WalkEntry.fsError :: rest => filesOf rest

/-- The pairs the producer is expected to deliver for the canonicalized
root `src`. -/
def rootPairs (fs : FS) (src : String) : List (String × String) :=
  (filesOf (fs.walk src)).map (fun p => (src, p))

/-- The pairs the producer is expected to deliver for a root list,
sequentially in root order (roots failing canonicalization contribute
nothing). -/
def expectedPairs (fs : FS) : List String → List (String × String)
  | [] => []
  | r :: rest =>
      (match fs.canon r with
       | some src => rootPairs fs src
       | none => []) ++ expectedPairs fs rest

/-! ### Helper lemmas -/

theorem W_val : W = 18446744073709551616 := by norm_num [W]

theorem usizeMAX_val : usizeMAX = 18446744073709551615 := by
  norm_num [usizeMAX, W_val]

theorem W_pos : 0 < W := by rw [W_val]; omega

/-! ### C3, C4, C9: the rate staircase -/

/-- C3: `fmt_speed(quantity, elapsed)` computes the displayed rate by
exactly the spec's staircase, evaluated in order, including the verbatim
milliseconds divisor of the nanosecond branch; on every input the embedded
source function and the staircase written from the spec's words agree. -/
theorem C3_fmt_speed_is_spec_staircase (x ela : Nat) :
    fmt_speed x ela = spec_rate_staircase x ela := by
  unfold fmt_speed spec_rate_staircase
  by_cases h1 : 1000000000 < ela
  · rw [if_pos h1, if_pos h1]
  · rw [if_neg h1, if_neg h1]
    by_cases h2 : 1000 < ela ∧ x < usizeMAX / 1000
    · rw [if_pos h2, if_pos h2]
      have hb := h2.2
      rw [usizeMAX_val] at hb
      have hx : x * 1000 % W = x * 1000 := by
        apply Nat.mod_eq_of_lt; rw [W_val]; omega
      have he : ela / 1000 % W = ela / 1000 := by
        apply Nat.mod_eq_of_lt; rw [W_val]; omega
      rw [hx, he]
    · rw [if_neg h2, if_neg h2]
      by_cases h3 : 1000000 < ela ∧ x < usizeMAX / 1000000
      · rw [if_pos h3, if_pos h3]
        have hb := h3.2
        rw [usizeMAX_val] at hb
        have hx : x * 1000000 % W = x * 1000000 := by
          apply Nat.mod_eq_of_lt; rw [W_val]; omega
        have he : ela / 1000000 % W = ela / 1000000 := by
          apply Nat.mod_eq_of_lt; rw [W_val]; omega
        rw [hx, he]
      · rw [if_neg h3, if_neg h3]
        by_cases h4 : 1 < ela ∧ x < usizeMAX / 1000000000
        · rw [if_pos h4, if_pos h4]
          have hb := h4.2
          rw [usizeMAX_val] at hb
          have hx : x * 1000000000 % W = x * 1000000000 := by
            apply Nat.mod_eq_of_lt; rw [W_val]; omega
          have he : ela / 1000000 % W = ela / 1000000 := by
            apply Nat.mod_eq_of_lt; rw [W_val]; omega
          rw [hx, he]
        · rw [if_neg h4, if_neg h4]

/-- C4: the spec's testable property `fmt_speed(0, any_duration) == 0`
fails on the code: at quantity `0` and elapsed `500` nanoseconds the
nanosecond branch divides by `elapsed.as_millis() = 0`, so the call panics
(modelled as `none`) instead of yielding `0`.  The claim's other two parts
do hold: `fmt_speed(x, 2 s) = x / 2` for every `x`, and
`fmt_speed(usize::MAX, 1 ns)` returns `0` without panic or overflow. -/
theorem C4_divzero_at_zero_quantity :
    fmt_speed 0 500 = none
    ∧ (∀ x : Nat, fmt_speed x 2000000000 = some (x / 2))
    ∧ fmt_speed usizeMAX 1 = some 0 := by
  refine ⟨by decide, ?_, by decide⟩
  intro x
  unfold fmt_speed
  rw [if_pos (by norm_num)]
  norm_num [checkedDiv]

/-- C9: for every quantity below `usize::MAX / 10^9` and every elapsed
duration strictly greater than one nanosecond and at most one microsecond,
`fmt_speed` reaches the nanosecond branch and divides by
`elapsed.as_millis() = 0`, panicking (modelled as `none`); in particular it
panics at quantity `0` and elapsed `500` nanoseconds. -/
theorem C9_nanosecond_branch_panics :
    (∀ x ela, x < usizeMAX / 1000000000 → 1 < ela → ela ≤ 1000 →
        fmt_speed x ela = none)
    ∧ fmt_speed 0 500 = none := by
  constructor
  · intro x ela hx h1 h2
    unfold fmt_speed
    rw [if_neg (by omega), if_neg (fun hc => absurd hc.1 (by omega)),
        if_neg (fun hc => absurd hc.1 (by omega)), if_pos ⟨h1, hx⟩]
    have hz : ela / 1000000 = 0 := by omega
    rw [hz]
    rfl
  · decide

/-- Witness for C9 at quantity `1`, elapsed `999` ns. -/
theorem C9_witness : fmt_speed 1 999 = none :=
  C9_nanosecond_branch_panics.1 1 999 (by decide) (by decide) (by decide)

/-! ### C2: the dirty-tracking primitive -/

theorem setList_cons {T : Type} [DecidableEq T] (t : TrackChange T) (v : T)
    (rest : List T) : t.setList (v :: rest) = (t.set v).setList rest := rfl

theorem set_val {T : Type} [DecidableEq T] (t : TrackChange T) (v : T) :
    (t.set v).val = v := by
  unfold TrackChange.set
  by_cases h : v = t.val
  · rw [if_pos h, h]
  · rw [if_neg h]

theorem setList_changed {T : Type} [DecidableEq T] (vs : List T) :
    ∀ t : TrackChange T,
      (t.setList vs).changed = (t.changed || hasTransition t.val vs) := by
  induction vs with
  | nil => intro t; simp [TrackChange.setList, hasTransition]
  | cons v rest ih =>
      intro t
      rw [setList_cons, ih, hasTransition]
      by_cases h : v = t.val
      · simp [TrackChange.set, h]
      · simp [TrackChange.set, h]

theorem hasTransition_const {T : Type} [DecidableEq T] (vs : List T) :
    ∀ c : T, (∀ u ∈ vs, u = c) → hasTransition c vs = false := by
  induction vs with
  | nil => intro c _; rfl
  | cons v rest ih =>
      intro c h
      have hv : v = c := h v (by simp)
      rw [hasTransition, hv]
      simp [ih c (fun u hu => h u (by simp [hu]))]

/-- C2: `set(v)` is a no-op when `v` equals the stored value and otherwise
stores `v` and raises the dirty flag; `changed()` returns the flag and
clears it; the flag after any sequence of `set` calls records exactly
whether some call genuinely changed the value, so on a clean value a
transition yields `true` on the first read and `false` on the next, while
repeated sets of an unchanged value never raise it; and a write through
`DerefMut` raises the flag unconditionally, even when the written value
equals the previous one. -/
theorem C2_track_change_contract :
    (∀ (T : Type) [DecidableEq T] (t : TrackChange T) (v : T),
        v = t.val → t.set v = t)
    ∧ (∀ (T : Type) [DecidableEq T] (t : TrackChange T) (v : T),
        ¬ v = t.val → t.set v = { val := v, changed := true })
    ∧ (∀ (T : Type) (t : TrackChange T),
        t.take_dirty = (t.changed, { val := t.val, changed := false }))
    ∧ (∀ (T : Type) [DecidableEq T] (t : TrackChange T) (vs : List T),
        (t.setList vs).changed = (t.changed || hasTransition t.val vs))
    ∧ (∀ (T : Type) [DecidableEq T] (t : TrackChange T) (v : T),
        t.changed = false → ¬ v = t.val →
          (t.set v).take_dirty.1 = true
          ∧ ((t.set v).take_dirty.2).take_dirty.1 = false)
    ∧ (∀ (T : Type) [DecidableEq T] (t : TrackChange T) (vs : List T),
        (∀ u ∈ vs, u = t.val) → (t.setList vs).changed = t.changed)
    ∧ (∀ (T : Type) (t : TrackChange T) (v : T),
        t.deref_mut_write v = { val := v, changed := true }) := by
  refine ⟨?_, ?_, ?_, ?_, ?_, ?_, ?_⟩
  · intro T _ t v h
    simp [TrackChange.set, h]
  · intro T _ t v h
    simp [TrackChange.set, h]
  · intro T t
    rfl
  · intro T _ t vs
    exact setList_changed vs t
  · intro T _ t v hc hv
    simp [TrackChange.set, hv, TrackChange.take_dirty]
  · intro T _ t vs h
    rw [setList_changed vs t, hasTransition_const vs t.val h]
    simp
  · intro T t v
    rfl

/-- Witness for C2: concrete `Nat`-valued instances of the conjuncts with
hypotheses. -/
theorem C2_witness :
    (TrackChange.mk 5 false).set 5 = TrackChange.mk 5 false
    ∧ (TrackChange.mk 5 false).set 7 = TrackChange.mk 7 true
    ∧ (((TrackChange.mk 5 false).set 7).take_dirty.1 = true
        ∧ (((TrackChange.mk 5 false).set 7).take_dirty.2).take_dirty.1 = false)
    ∧ ((TrackChange.mk 5 false).setList [5, 5, 5]).changed = false :=
  ⟨C2_track_change_contract.1 Nat (TrackChange.mk 5 false) 5 rfl,
   C2_track_change_contract.2.1 Nat (TrackChange.mk 5 false) 7 (by decide),
   C2_track_change_contract.2.2.2.2.1 Nat (TrackChange.mk 5 false) 7 rfl
     (by decide),
   C2_track_change_contract.2.2.2.2.2.1 Nat (TrackChange.mk 5 false) [5, 5, 5]
     (by decide)⟩

/-! ### Presenter and coordinator-loop lemmas -/

theorem update_progress_throttled (now : Nat) (app : AppM)
    (stats : OperationStats) (h : now - app.last_update < 97000000) :
    update_progress now app stats = (app, stats) := by
  unfold update_progress
  rw [if_pos h]

theorem update_progress_stats_counters (now : Nat) (app : AppM)
    (stats : OperationStats) :
    (update_progress now app stats).2.bytes_done = stats.bytes_done
    ∧ (update_progress now app stats).2.files_done = stats.files_done := by
  unfold update_progress
  dsimp only [TrackChange.take_dirty]
  split_ifs <;> exact ⟨rfl, rfl⟩

theorem update_progress_go (now : Nat) (app : AppM) (stats : OperationStats)
    (h : ¬ now - app.last_update < 97000000) :
    (update_progress now app stats).1.redraw_count = app.redraw_count + 1
    ∧ (update_progress now app stats).1.last_update = now := by
  unfold update_progress
  rw [if_neg h]
  dsimp only [TrackChange.take_dirty]
  split_ifs <;> exact ⟨rfl, rfl⟩

theorem runStep_sent (st : LoopState) (ev : WorkerEvent) (now : Nat) :
    (runStep st ev now).sent = st.sent ++ (replyFor ev).toList := rfl

theorem runStep_bytes_done (st : LoopState) (ev : WorkerEvent) (now : Nat) :
    (runStep st ev now).stats.bytes_done = (applyEvent st.stats ev).bytes_done :=
  (update_progress_stats_counters now st.app (applyEvent st.stats ev)).1

theorem runStep_files_done (st : LoopState) (ev : WorkerEvent) (now : Nat) :
    (runStep st ev now).stats.files_done = (applyEvent st.stats ev).files_done :=
  (update_progress_stats_counters now st.app (applyEvent st.stats ev)).2

theorem applyEvent_bytes_done (s : OperationStats) (e : WorkerEvent)
    (h : s.bytes_done < W) :
    (applyEvent s e).bytes_done = (s.bytes_done + chunkOf e) % W := by
  cases e with
  | status st => simp [applyEvent, chunkOf, Nat.mod_eq_of_lt h]
  | stat c =>
      cases c with
      | filesDone => simp [applyEvent, chunkOf, Nat.mod_eq_of_lt h]
      | filesTotal => simp [applyEvent, chunkOf, Nat.mod_eq_of_lt h]
      | bytesTotal n => simp [applyEvent, chunkOf, Nat.mod_eq_of_lt h]
      | current p chunk dn todo => simp [applyEvent, chunkOf]

theorem applyEvent_files_done (s : OperationStats) (e : WorkerEvent)
    (h : s.files_done < W) :
    (applyEvent s e).files_done = (s.files_done + fdOf e) % W := by
  cases e with
  | status st => simp [applyEvent, fdOf, Nat.mod_eq_of_lt h]
  | stat c =>
      cases c with
      | filesDone => simp [applyEvent, fdOf]
      | filesTotal => simp [applyEvent, fdOf, Nat.mod_eq_of_lt h]
      | bytesTotal n => simp [applyEvent, fdOf, Nat.mod_eq_of_lt h]
      | current p chunk dn todo => simp [applyEvent, fdOf, Nat.mod_eq_of_lt h]

theorem runLoop_sent (evs : List (WorkerEvent × Nat)) :
    ∀ st : LoopState,
      (runLoop st evs).sent
        = st.sent ++ (evs.map Prod.fst).filterMap replyFor := by
  induction evs with
  | nil => intro st; simp [runLoop]
  | cons p rest ih =>
      intro st
      obtain ⟨ev, t⟩ := p
      show (runLoop (runStep st ev t) rest).sent = _
      rw [ih, runStep_sent]
      cases hr : replyFor ev <;>
        simp [hr, List.filterMap_cons, List.append_assoc, Option.toList]

theorem runLoop_counters (evs : List (WorkerEvent × Nat)) :
    ∀ st : LoopState, st.stats.bytes_done < W → st.stats.files_done < W →
      (runLoop st evs).stats.bytes_done
          = (st.stats.bytes_done + sumChunks (evs.map Prod.fst)) % W
      ∧ (runLoop st evs).stats.files_done
          = (st.stats.files_done + countFilesDone (evs.map Prod.fst)) % W := by
  induction evs with
  | nil =>
      intro st hb hf
      constructor
      · show st.stats.bytes_done = (st.stats.bytes_done + 0) % W
        rw [Nat.add_zero, Nat.mod_eq_of_lt hb]
      · show st.stats.files_done = (st.stats.files_done + 0) % W
        rw [Nat.add_zero, Nat.mod_eq_of_lt hf]
  | cons p rest ih =>
      intro st hb hf
      obtain ⟨ev, t⟩ := p
      have hstepb : (runStep st ev t).stats.bytes_done
          = (st.stats.bytes_done + chunkOf ev) % W := by
        rw [runStep_bytes_done, applyEvent_bytes_done st.stats ev hb]
      have hstepf : (runStep st ev t).stats.files_done
          = (st.stats.files_done + fdOf ev) % W := by
        rw [runStep_files_done, applyEvent_files_done st.stats ev hf]
      have hb' : (runStep st ev t).stats.bytes_done < W := by
        rw [hstepb]; exact Nat.mod_lt _ W_pos
      have hf' : (runStep st ev t).stats.files_done < W := by
        rw [hstepf]; exact Nat.mod_lt _ W_pos
      have := ih (runStep st ev t) hb' hf'
      constructor
      · show (runLoop (runStep st ev t) rest).stats.bytes_done = _
        rw [this.1, hstepb, Nat.mod_add_mod]
        simp [sumChunks, Nat.add_assoc]
      · show (runLoop (runStep st ev t) rest).stats.files_done = _
        rw [this.2, hstepf, Nat.mod_add_mod]
        simp [countFilesDone, Nat.add_assoc]

/-! ### C1: statistics updates of the coordinator loop -/

/-- C1 (amended): processing `WorkerEvent`s updates `OperationStats`
exactly per variant, with `usize` additions reducing modulo `2^64`:
`FilesDone` increments `files_done`; `FilesTotal` increments
`files_total`'s contained value and marks it dirty; `BytesTotal(n)` adds
`n` to `bytes_total`'s contained value and marks it dirty;
`Current(p, chunk, done, total)` change-track-sets `current_path` and
`current_total`, assigns `current_done` and adds `chunk` to `bytes_done`.
Consequently after any interleaved event sequence run through the
coordinator loop, `bytes_done` is the sum of the `Current` chunks and
`files_done` the number of `FilesDone` events, each modulo `2^64` — hence
equal to the plain sum and count whenever those are below `2^64`. -/
theorem C1_stats_per_variant_and_sums :
    (∀ s : OperationStats, applyEvent s (WorkerEvent.stat StatsChange.filesDone)
        = { s with files_done := (s.files_done + 1) % W })
    ∧ (∀ s : OperationStats, applyEvent s (WorkerEvent.stat StatsChange.filesTotal)
        = { s with files_total :=
              { val := (s.files_total.val + 1) % W, changed := true } })
    ∧ (∀ (s : OperationStats) (n : Nat),
        applyEvent s (WorkerEvent.stat (StatsChange.bytesTotal n))
          = { s with bytes_total :=
                { val := (s.bytes_total.val + n) % W, changed := true } })
    ∧ (∀ (s : OperationStats) (p : String) (chunk dn todo : Nat),
        applyEvent s (WorkerEvent.stat (StatsChange.current p chunk dn todo))
          = { s with current_path := s.current_path.set p,
                     current_total := s.current_total.set todo,
                     current_done := dn,
                     bytes_done := (s.bytes_done + chunk) % W })
    ∧ (∀ (t0 : Nat) (evs : List (WorkerEvent × Nat)),
        (runLoop (initLoopState t0) evs).stats.bytes_done
            = sumChunks (evs.map Prod.fst) % W
        ∧ (runLoop (initLoopState t0) evs).stats.files_done
            = countFilesDone (evs.map Prod.fst) % W) := by
  refine ⟨fun s => rfl, fun s => rfl, fun s n => rfl, fun s p c d t => rfl, ?_⟩
  intro t0 evs
  have h := runLoop_counters evs (initLoopState t0) W_pos W_pos
  constructor
  · rw [h.1]
    show (0 + _) % W = _
    rw [Nat.zero_add]
  · rw [h.2]
    show (0 + _) % W = _
    rw [Nat.zero_add]

/-- Counterexample for C1 as stated: two `Current` events whose chunks sum
to `2^64` leave `bytes_done = 0`, not the sum `c₁ + c₂`, because `usize`
addition wraps. -/
theorem C1_counterexample :
    (runLoop (initLoopState 0)
        [(WorkerEvent.stat (StatsChange.current "" (W - 1) 0 0), 0),
         (WorkerEvent.stat (StatsChange.current "" 1 0 0), 0)]).stats.bytes_done
      ≠ (W - 1) + 1 := by decide

/-! ### C5: monotonicity of the counters -/

/-- C5 (amended): a coordinator event never decreases `bytes_done` or
`files_done` provided the `usize` addition it performs does not overflow
(wrap-around past `2^64` is the sole exception), and a presenter update
never changes either counter. -/
theorem C5_counters_monotone :
    (∀ (s : OperationStats) (e : WorkerEvent),
        s.bytes_done + chunkOf e < W → s.files_done + fdOf e < W →
          s.bytes_done ≤ (applyEvent s e).bytes_done
          ∧ s.files_done ≤ (applyEvent s e).files_done)
    ∧ (∀ (now : Nat) (app : AppM) (s : OperationStats),
        (update_progress now app s).2.bytes_done = s.bytes_done
        ∧ (update_progress now app s).2.files_done = s.files_done) := by
  constructor
  · intro s e hb hf
    cases e with
    | status st => exact ⟨Nat.le_refl _, Nat.le_refl _⟩
    | stat c =>
        cases c with
        | filesDone =>
            refine ⟨Nat.le_refl _, ?_⟩
            show s.files_done ≤ (s.files_done + 1) % W
            have : s.files_done + 1 < W := by
              simpa [fdOf] using hf
            rw [Nat.mod_eq_of_lt this]
            omega
        | filesTotal => exact ⟨Nat.le_refl _, Nat.le_refl _⟩
        | bytesTotal n => exact ⟨Nat.le_refl _, Nat.le_refl _⟩
        | current p chunk dn todo =>
            refine ⟨?_, Nat.le_refl _⟩
            show s.bytes_done ≤ (s.bytes_done + chunk) % W
            have : s.bytes_done + chunk < W := by
              simpa [chunkOf] using hb
            rw [Nat.mod_eq_of_lt this]
            omega
  · intro now app s
    exact update_progress_stats_counters now app s

/-- Witness for C5 at the default statistics and a small `Current` event. -/
theorem C5_witness :
    (defaultStats 0).bytes_done
        ≤ (applyEvent (defaultStats 0)
            (WorkerEvent.stat (StatsChange.current "x" 7 7 10))).bytes_done
    ∧ (defaultStats 0).files_done
        ≤ (applyEvent (defaultStats 0)
            (WorkerEvent.stat (StatsChange.current "x" 7 7 10))).files_done :=
  C5_counters_monotone.1 (defaultStats 0)
    (WorkerEvent.stat (StatsChange.current "x" 7 7 10)) (by decide) (by decide)

/-- Counterexample for C5 as stated: starting from the default statistics,
a `Current` event with chunk `usize::MAX` followed by one with chunk `1`
makes `bytes_done` wrap from `2^64 - 1` to `0`, a decrease. -/
theorem C5_counterexample :
    (applyEvent
        (runLoop (initLoopState 0)
          [(WorkerEvent.stat (StatsChange.current "" usizeMAX 0 0), 0)]).stats
        (WorkerEvent.stat (StatsChange.current "" 1 0 0))).bytes_done
      < (runLoop (initLoopState 0)
          [(WorkerEvent.stat (StatsChange.current "" usizeMAX 0 0), 0)]).stats.bytes_done := by
  decide

/-! ### C6: the error-arbitration replies -/

/-- C6: over any event sequence the coordinator loop sends exactly one
control reply per `Status(Error)` event, in order, and nothing for any
other event; the default decision policy `error_ask` always answers
`Skip`. -/
theorem C6_one_skip_per_error :
    (∀ (st : LoopState) (evs : List (WorkerEvent × Nat)),
        (runLoop st evs).sent
          = st.sent ++ (evs.map Prod.fst).filterMap replyFor)
    ∧ (∀ m : String,
        replyFor (WorkerEvent.status (OperationStatus.error m))
          = some OperationControl.skip)
    ∧ (∀ e : WorkerEvent,
        (∀ m : String, e ≠ WorkerEvent.status (OperationStatus.error m)) →
          replyFor e = none) := by
  refine ⟨fun st evs => runLoop_sent evs st, fun m => rfl, ?_⟩
  intro e h
  cases e with
  | stat c => rfl
  | status s =>
      cases s with
      | error m => exact absurd rfl (h m)
      | otherStatus => rfl

/-- Witness for C6: a non-error event produces no control reply. -/
theorem C6_witness :
    replyFor (WorkerEvent.stat StatsChange.filesDone) = none :=
  C6_one_skip_per_error.2.2 (WorkerEvent.stat StatsChange.filesDone)
    (fun _m h => WorkerEvent.noConfusion h)

/-! ### C7: the 97 ms redraw throttle -/

/-- C7: `update_progress` is a complete no-op — presenter state (display
regions, last-update instant) and statistics (dirty flags) unchanged —
whenever less than 97 ms elapsed since the previous redraw that proceeded;
a call at or past 97 ms redraws, stamping the call instant.  Hence two
updates separated by less than 97 ms after a redraw produce exactly one
visible redraw, and two separated by at least 97 ms produce two. -/
theorem C7_update_throttle :
    (∀ (now : Nat) (app : AppM) (stats : OperationStats),
        now - app.last_update < 97000000 →
          update_progress now app stats = (app, stats))
    ∧ (∀ (now : Nat) (app : AppM) (stats : OperationStats),
        ¬ now - app.last_update < 97000000 →
          (update_progress now app stats).1.redraw_count = app.redraw_count + 1
          ∧ (update_progress now app stats).1.last_update = now)
    ∧ (∀ (t1 t2 : Nat) (app : AppM) (stats : OperationStats),
        ¬ t1 - app.last_update < 97000000 → t2 - t1 < 97000000 →
          (update_progress t2 (update_progress t1 app stats).1
              (update_progress t1 app stats).2).1.redraw_count
            = app.redraw_count + 1)
    ∧ (∀ (t1 t2 : Nat) (app : AppM) (stats : OperationStats),
        ¬ t1 - app.last_update < 97000000 → 97000000 ≤ t2 - t1 →
          (update_progress t2 (update_progress t1 app stats).1
              (update_progress t1 app stats).2).1.redraw_count
            = app.redraw_count + 2) := by
  refine ⟨update_progress_throttled, update_progress_go, ?_, ?_⟩
  · intro t1 t2 app stats h1 h2
    have hgo := update_progress_go t1 app stats h1
    have hth : t2 - (update_progress t1 app stats).1.last_update < 97000000 := by
      rw [hgo.2]; exact h2
    rw [update_progress_throttled t2 _ _ hth]
    exact hgo.1
  · intro t1 t2 app stats h1 h2
    have hgo := update_progress_go t1 app stats h1
    have hth : ¬ t2 - (update_progress t1 app stats).1.last_update < 97000000 := by
      rw [hgo.2]; omega
    have hgo2 := update_progress_go t2 (update_progress t1 app stats).1
      (update_progress t1 app stats).2 hth
    rw [hgo2.1, hgo.1]

/-- Witness for C7: from a presenter last updated at instant `0`, updates
at `97000000` and `97000001` ns yield one redraw, and the throttled update
is a literal no-op. -/
theorem C7_witness :
    (update_progress 50 (initLoopState 0).app (defaultStats 0)
        = ((initLoopState 0).app, defaultStats 0))
    ∧ (update_progress 97000001
          (update_progress 97000000 (initLoopState 0).app (defaultStats 0)).1
          (update_progress 97000000 (initLoopState 0).app (defaultStats 0)).2).1.redraw_count
        = (initLoopState 0).app.redraw_count + 1 :=
  ⟨C7_update_throttle.1 50 (initLoopState 0).app (defaultStats 0) (by decide),
   C7_update_throttle.2.2.1 97000000 97000001 (initLoopState 0).app
     (defaultStats 0) (by decide) (by decide)⟩

/-! ### Walker lemmas -/

theorem walkEntries_nolimit (src : String) :
    ∀ (es : List WalkEntry) (cnt : Nat) (out : List (String × String)),
      walkEntries src none cnt out es
        = (out ++ (filesOf es).map (fun p => (src, p)),
           cnt + (filesOf es).length, true) := by
  intro es
  induction es with
  | nil => intro cnt out; simp [walkEntries, filesOf]
  | cons e rest ih =>
      intro cnt out
      cases e with
      | fsError => simpa [walkEntries, filesOf] using ih cnt out
      | found p isF =>
          cases isF with
          | false => simpa [walkEntries, filesOf] using ih cnt out
          | true =>
              show walkEntries src none (cnt + 1) (out ++ [(src, p)]) rest = _
              rw [ih]
              refine Prod.ext ?_ (Prod.ext ?_ rfl)
              · simp [filesOf, List.append_assoc]
              · simp [filesOf]
                omega

theorem walkEntries_limit (src : String) (k : Nat) :
    ∀ (es : List WalkEntry) (cnt : Nat) (out : List (String × String)),
      cnt ≤ k →
      walkEntries src (some k) cnt out es
        = (if cnt + (filesOf es).length ≤ k
           then (out ++ (filesOf es).map (fun p => (src, p)),
                 cnt + (filesOf es).length, true)
           else (out ++ ((filesOf es).map (fun p => (src, p))).take (k - cnt),
                 k, false)) := by
  intro es
  induction es with
  | nil =>
      intro cnt out h
      rw [if_pos (by simpa [filesOf] using h)]
      simp [walkEntries, filesOf]
  | cons e rest ih =>
      intro cnt out h
      cases e with
      | fsError => simpa [walkEntries, filesOf] using ih cnt out h
      | found p isF =>
          cases isF with
          | false => simpa [walkEntries, filesOf] using ih cnt out h
          | true =>
              show (if k ≤ cnt then (out, cnt, false)
                    else walkEntries src (some k) (cnt + 1) (out ++ [(src, p)]) rest) = _
              by_cases hk : k ≤ cnt
              · rw [if_pos hk]
                have hck : cnt = k := Nat.le_antisymm h hk
                rw [if_neg (by simp [filesOf]; omega)]
                simp [hck, filesOf]
              · rw [if_neg hk]
                rw [ih (cnt + 1) (out ++ [(src, p)]) (by omega)]
                by_cases hc : cnt + 1 + (filesOf rest).length ≤ k
                · rw [if_pos hc, if_pos (by simp [filesOf]; omega)]
                  refine Prod.ext ?_ (Prod.ext ?_ rfl)
                  · simp [filesOf, List.append_assoc]
                  · simp [filesOf]
                    omega
                · rw [if_neg hc, if_neg (by simp [filesOf]; omega)]
                  have hs : k - cnt = (k - (cnt + 1)) + 1 := by omega
                  refine Prod.ext ?_ (Prod.ext rfl rfl)
                  simp only [filesOf, List.map_cons, hs, List.take_succ_cons,
                    List.append_assoc, List.cons_append, List.nil_append]

theorem runWalker_nolimit (fs : FS) :
    ∀ (roots : List String) (cnt : Nat) (out : List (String × String)),
      (∀ r ∈ roots, (fs.canon r).isSome) →
      runWalker fs none roots cnt out
        = (out ++ expectedPairs fs roots, WalkerExit.finished) := by
  intro roots
  induction roots with
  | nil => intro cnt out _; simp [runWalker, expectedPairs]
  | cons r rest ih =>
      intro cnt out h
      obtain ⟨src, hsrc⟩ := Option.isSome_iff_exists.mp (h r (by simp))
      show (match fs.canon r with
            | none => (out, WalkerExit.canonPanic r)
            | some src =>
                match walkEntries src none cnt out (fs.walk src) with
                | (out2, cnt2, true) => runWalker fs none rest cnt2 out2
                | (out2, _, false) => (out2, WalkerExit.sendPanic)) = _
      rw [hsrc]
      simp only [walkEntries_nolimit]
      rw [ih _ _ (fun q hq => h q (by simp [hq]))]
      simp [expectedPairs, hsrc, rootPairs, List.append_assoc]

theorem runWalker_limit (fs : FS) (k : Nat) :
    ∀ (roots : List String) (cnt : Nat) (out : List (String × String)),
      (∀ r ∈ roots, (fs.canon r).isSome) → cnt ≤ k →
      runWalker fs (some k) roots cnt out
        = (if cnt + (expectedPairs fs roots).length ≤ k
           then (out ++ expectedPairs fs roots, WalkerExit.finished)
           else (out ++ (expectedPairs fs roots).take (k - cnt),
                 WalkerExit.sendPanic)) := by
  intro roots
  induction roots with
  | nil =>
      intro cnt out _ hck
      rw [if_pos (by simpa [expectedPairs] using hck)]
      simp [runWalker, expectedPairs]
  | cons r rest ih =>
      intro cnt out h hck
      obtain ⟨src, hsrc⟩ := Option.isSome_iff_exists.mp (h r (by simp))
      have hexp : expectedPairs fs (r :: rest)
          = rootPairs fs src ++ expectedPairs fs rest := by
        simp [expectedPairs, hsrc]
      have hlen : (rootPairs fs src).length = (filesOf (fs.walk src)).length := by
        simp [rootPairs]
      show (match fs.canon r with
            | none => (out, WalkerExit.canonPanic r)
            | some src =>
                match walkEntries src (some k) cnt out (fs.walk src) with
                | (out2, cnt2, true) => runWalker fs (some k) rest cnt2 out2
                | (out2, _, false) => (out2, WalkerExit.sendPanic)) = _
      rw [hsrc]
      have hwe := walkEntries_limit src k (fs.walk src) cnt out hck
      simp only [hwe]
      by_cases h1 : cnt + (filesOf (fs.walk src)).length ≤ k
      · rw [if_pos h1]
        simp only []
        rw [ih (cnt + (filesOf (fs.walk src)).length) _
            (fun q hq => h q (by simp [hq])) h1]
        by_cases h2 : cnt + (filesOf (fs.walk src)).length
            + (expectedPairs fs rest).length ≤ k
        · rw [if_pos h2, if_pos (by rw [hexp]; simp [hlen]; omega)]
          rw [hexp]
          simp [rootPairs, List.append_assoc]
        · rw [if_neg h2, if_neg (by rw [hexp]; simp [hlen]; omega)]
          rw [hexp]
          refine Prod.ext ?_ rfl
          rw [List.take_append_eq_append_take]
          rw [List.take_of_length_le (by omega : (rootPairs fs src).length ≤ k - cnt)]
          have : k - cnt - (rootPairs fs src).length
              = k - (cnt + (filesOf (fs.walk src)).length) := by
            rw [hlen]; omega
          rw [this]
          simp [rootPairs, List.append_assoc]
      · rw [if_neg h1]
        simp only []
        rw [if_neg (by rw [hexp]; simp [hlen]; omega)]
        rw [hexp]
        refine Prod.ext ?_ rfl
        rw [List.take_append_of_le_length (by rw [hlen]; omega)]
        simp [rootPairs]

theorem runWalker_canon_none (fs : FS) (r : String) (post : List String)
    (hr : fs.canon r = none) :
    ∀ (pre : List String) (cnt : Nat) (out : List (String × String)),
      (∀ q ∈ pre, (fs.canon q).isSome) →
      runWalker fs none (pre ++ r :: post) cnt out
        = (out ++ expectedPairs fs pre, WalkerExit.canonPanic r) := by
  intro pre
  induction pre with
  | nil =>
      intro cnt out _
      show (match fs.canon r with
            | none => (out, WalkerExit.canonPanic r)
            | some src =>
                match walkEntries src none cnt out (fs.walk src) with
                | (out2, cnt2, true) => runWalker fs none post cnt2 out2
                | (out2, _, false) => (out2, WalkerExit.sendPanic)) = _
      rw [hr]
      simp [expectedPairs]
  | cons q pre ih =>
      intro cnt out h
      obtain ⟨src, hsrc⟩ := Option.isSome_iff_exists.mp (h q (by simp))
      show (match fs.canon q with
            | none => (out, WalkerExit.canonPanic q)
            | some src =>
                match walkEntries src none cnt out (fs.walk src) with
                | (out2, cnt2, true) =>
                    runWalker fs none (pre ++ r :: post) cnt2 out2
                | (out2, _, false) => (out2, WalkerExit.sendPanic)) = _
      rw [hsrc]
      simp only [walkEntries_nolimit]
      rw [ih _ _ (fun u hu => h u (by simp [hu]))]
      simp [expectedPairs, hsrc, rootPairs, List.append_assoc]

/-! ### C8, C10: the path producer -/

/-- C8: with every root canonicalizable, the producer processes its roots
sequentially and delivers `(canonical_root, file_path)` for exactly the
regular files of each traversal, in order — traversal errors are skipped
and traversal continues — and it finishes normally when the channel stays
alive; if the channel dies after accepting `k` sends (with more files still
to come), the producer terminates immediately on the failed send, having
delivered exactly the first `k` pairs. -/
theorem C8_producer_contract :
    (∀ (fs : FS) (roots : List String),
        (∀ r ∈ roots, (fs.canon r).isSome) →
        runWalker fs none roots 0 []
          = (expectedPairs fs roots, WalkerExit.finished))
    ∧ (∀ (fs : FS) (roots : List String) (k : Nat),
        (∀ r ∈ roots, (fs.canon r).isSome) →
        k < (expectedPairs fs roots).length →
        runWalker fs (some k) roots 0 []
          = ((expectedPairs fs roots).take k, WalkerExit.sendPanic)) := by
  constructor
  · intro fs roots h
    rw [runWalker_nolimit fs roots 0 [] h]
    simp
  · intro fs roots k h hk
    rw [runWalker_limit fs k roots 0 [] h (Nat.zero_le k)]
    rw [if_neg (by omega)]
    simp

/-- C10: if canonicalizing a root fails, the producer thread panics on the
`unwrap` before any traversal of that root: the delivered pairs are exactly
those of the earlier (canonicalizable) roots, and the roots after the
failing one are never traversed. -/
theorem C10_canonicalize_failure_fatal :
    ∀ (fs : FS) (pre : List String) (r : String) (post : List String),
      (∀ q ∈ pre, (fs.canon q).isSome) → fs.canon r = none →
      runWalker fs none (pre ++ r :: post) 0 []
        = (expectedPairs fs pre, WalkerExit.canonPanic r) := by
  intro fs pre r post hpre hr
  rw [runWalker_canon_none fs r post hr pre 0 [] hpre]
  simp

/-- A concrete filesystem oracle: roots `"a"` and `"b"` canonicalize to
`"ca"` and `"cb"`; the traversal of `"ca"` yields two regular files around
a traversal error and a directory, that of `"cb"` one regular file; every
other root fails to canonicalize. -/
def fsEx : FS :=
  { canon := fun r =>
      if r = "a" then some "ca" else if r = "b" then some "cb" else none
    walk := fun s =>
      if s = "ca" then
        [WalkEntry.found "ca/f1" true, WalkEntry.fsError,
         WalkEntry.found "ca/d" false, WalkEntry.found "ca/f2" true]
      else if s = "cb" then [WalkEntry.found "cb/f3" true]
      else [] }

/-- Witness for C8 on `fsEx`: a healthy channel receives all three files;
a channel that dies after two sends stops the producer with exactly the
first two pairs delivered. -/
theorem C8_witness :
    runWalker fsEx none ["a", "b"] 0 []
        = (expectedPairs fsEx ["a", "b"], WalkerExit.finished)
    ∧ runWalker fsEx (some 2) ["a", "b"] 0 []
        = ((expectedPairs fsEx ["a", "b"]).take 2, WalkerExit.sendPanic) :=
  ⟨C8_producer_contract.1 fsEx ["a", "b"] (by decide),
   C8_producer_contract.2 fsEx ["a", "b"] 2 (by decide) (by decide)⟩

/-- Witness for C10 on `fsEx`: with the uncanonicalizable root `"zz"`
between `"a"` and `"b"`, only `"a"`'s files are delivered and the thread
panics at `"zz"`. -/
theorem C10_witness :
    runWalker fsEx none (["a"] ++ "zz" :: ["b"]) 0 []
      = (expectedPairs fsEx ["a"], WalkerExit.canonPanic "zz") :=
  C10_canonicalize_failure_fatal fsEx ["a"] "zz" ["b"] (by decide) (by decide)

end Ppcp
